import Mathlib

namespace Suffcal

/-- The double-quote character (written by code point to keep literals simple). -/
def dquote : Char := Char.ofNat 34

/-- The single-quote character. -/
def squote : Char := Char.ofNat 39

/-- The backslash character. -/
def bslash : Char := Char.ofNat 92

/-- The opening curly brace character. -/
def lbrace : Char := Char.ofNat 123

/-- The closing curly brace character. -/
def rbrace : Char := Char.ofNat 125

/-- Characters stripped by Python `str.strip()` with no argument. -/
def isPySpace (c : Char) : Bool :=
  c == ' ' || c == '\t' || c == '\n' || c == '\r' || c == Char.ofNat 11 || c == Char.ofNat 12

/-- Python `str.strip()`: remove leading and trailing whitespace. -/
def pyStrip (l : List Char) : List Char :=
  ((l.dropWhile isPySpace).reverse.dropWhile isPySpace).reverse

/-- Fuelled worker for Python `str.replace`: replace every non-overlapping
occurrence of the pattern `p :: ps`, scanning left to right.  Fuel equal to the
input length always suffices since each step consumes at least one character;
on fuel exhaustion the remainder is returned unchanged. -/
def pyReplaceAux (p : Char) (ps rep : List Char) : Nat → List Char → List Char
  | 0, l => l
  | _, [] => []
  | f + 1, c :: cs =>
    if (p :: ps).isPrefixOf (c :: cs) then rep ++ pyReplaceAux p ps rep f (cs.drop ps.length)
    else c :: pyReplaceAux p ps rep f cs

/-- Python `str.replace(pat, rep)` for the non-empty pattern `p :: ps`. -/
def pyReplace (p : Char) (ps rep : List Char) (l : List Char) : List Char :=
  pyReplaceAux p ps rep l.length l

/-- The `_default_cleanup` inner function of `Extractor._parse_ai_response`:
newlines to spaces, single quotes to double quotes, then strip the comma of
`,}` and of `,]`. -/
def defaultCleanup (t : List Char) : List Char :=
  pyReplace ',' [']'] [']']
    (pyReplace ',' [rbrace] [rbrace]
      (pyReplace squote [] [dquote]
        (pyReplace '\n' [] [' '] t)))

/-- Python `" ".join(words)`. -/
def joinSp : List (List Char) → List Char
  | [] => []
  | [w] => w
  | w :: w2 :: ws => w ++ ' ' :: joinSp (w2 :: ws)

/-- JSON values as produced by `json.loads`.  Numbers keep their source lexeme;
objects keep their key/value pairs in source order (lookups take the last
binding, matching Python dict construction). -/
inductive JVal : Type where
  | jnull : JVal
  | jbool : Bool → JVal
  | jnum : List Char → JVal
  | jstr : List Char → JVal
  | jarr : List JVal → JVal
  | jobj : List (List Char × JVal) → JVal

/-- JSON whitespace accepted between tokens by `json.loads`. -/
def isJsonWs (c : Char) : Bool :=
  c == ' ' || c == '\t' || c == '\n' || c == '\r'

/-- Skip JSON whitespace. -/
def skipWs (l : List Char) : List Char := l.dropWhile isJsonWs

/-- Value of a hex digit, if the character is one. -/
def hexVal (c : Char) : Option Nat :=
  if c.isDigit then some (c.toNat - 48)
  else if 'a' ≤ c ∧ c ≤ 'f' then some (c.toNat - 87)
  else if 'A' ≤ c ∧ c ≤ 'F' then some (c.toNat - 55)
  else none

/-- Parse the rest of a JSON string literal (the opening quote has been
consumed).  Strict mode of `json.loads`: unescaped control characters are
rejected; the escapes are `\" \\ \/ \b \f \n \r \t \uXXXX`. -/
def parseStringRest : List Char → Option (List Char × List Char)
  | [] => none
  | c :: cs =>
    if c == dquote then some ([], cs)
    else if c == bslash then
      match cs with
      | [] => none
      | e :: cs2 =>
        if e == dquote then (parseStringRest cs2).map (fun r => (dquote :: r.1, r.2))
        else if e == bslash then (parseStringRest cs2).map (fun r => (bslash :: r.1, r.2))
        else if e == '/' then (parseStringRest cs2).map (fun r => ('/' :: r.1, r.2))
        else if e == 'b' then (parseStringRest cs2).map (fun r => (Char.ofNat 8 :: r.1, r.2))
        else if e == 'f' then (parseStringRest cs2).map (fun r => (Char.ofNat 12 :: r.1, r.2))
        else if e == 'n' then (parseStringRest cs2).map (fun r => ('\n' :: r.1, r.2))
        else if e == 'r' then (parseStringRest cs2).map (fun r => ('\r' :: r.1, r.2))
        else if e == 't' then (parseStringRest cs2).map (fun r => ('\t' :: r.1, r.2))
        else if e == 'u' then
          match cs2 with
          | h1 :: h2 :: h3 :: h4 :: cs3 =>
            match hexVal h1, hexVal h2, hexVal h3, hexVal h4 with
            | some a, some b, some c', some d =>
              (parseStringRest cs3).map
                (fun r => (Char.ofNat (a * 4096 + b * 256 + c' * 16 + d) :: r.1, r.2))
            | _, _, _, _ => none
          | _ => none
        else none
    else if c.toNat < 32 then none
    else (parseStringRest cs).map (fun r => (c :: r.1, r.2))

/-- After the integer part of a JSON number: optional fraction and exponent,
mirroring the regular expression used by `json.loads` (each component is
matched greedily or not at all). -/
def numTail (acc : List Char) (l : List Char) : List Char × List Char :=
  let (acc1, l1) :=
    match l with
    | '.' :: r =>
      let ds := r.takeWhile Char.isDigit
      if ds = [] then (acc, l) else (acc ++ '.' :: ds, r.dropWhile Char.isDigit)
    | _ => (acc, l)
  match l1 with
  | e :: r =>
    if e == 'e' || e == 'E' then
      let (sgn, r2) :=
        match r with
        | s :: r2 => if s == '+' || s == '-' then ([s], r2) else (([] : List Char), r)
        | [] => ([], r)
      let ds := r2.takeWhile Char.isDigit
      if ds = [] then (acc1, l1) else (acc1 ++ e :: (sgn ++ ds), r2.dropWhile Char.isDigit)
    else (acc1, l1)
  | [] => (acc1, l1)

/-- Parse a JSON number lexeme: `-?(0|[1-9][0-9]*)(\.[0-9]+)?([eE][+-]?[0-9]+)?`. -/
def parseNumber (l : List Char) : Option (List Char × List Char) :=
  let (neg, l1) :=
    match l with
    | c :: cs => if c == '-' then (([c] : List Char), cs) else ([], l)
    | [] => ([], l)
  match l1 with
  | [] => none
  | c :: cs =>
    if c == '0' then some (numTail (neg ++ [c]) cs)
    else if c.isDigit then
      some (numTail (neg ++ c :: cs.takeWhile Char.isDigit) (cs.dropWhile Char.isDigit))
    else none

mutual

/-- Parse one JSON value (fuelled).  Models the grammar accepted by
`json.loads` (without the non-standard NaN/Infinity literals, which never
occur in the inputs considered here). -/
def parseValue : Nat → List Char → Option (JVal × List Char)
  | 0, _ => none
  | f + 1, l =>
    match l with
    | [] => none
    | c :: cs =>
      if c == lbrace then parseObjBody f cs
      else if c == '[' then parseArrBody f cs
      else if c == dquote then (parseStringRest cs).map (fun r => (JVal.jstr r.1, r.2))
      else if c == 't' then
        if ("rue").data.isPrefixOf cs then some (JVal.jbool true, cs.drop 3) else none
      else if c == 'f' then
        if ("alse").data.isPrefixOf cs then some (JVal.jbool false, cs.drop 4) else none
      else if c == 'n' then
        if ("ull").data.isPrefixOf cs then some (JVal.jnull, cs.drop 3) else none
      else if c == '-' || c.isDigit then (parseNumber l).map (fun r => (JVal.jnum r.1, r.2))
      else none

/-- Parse an object body, the opening brace having been consumed. -/
def parseObjBody : Nat → List Char → Option (JVal × List Char)
  | 0, _ => none
  | f + 1, l =>
    match skipWs l with
    | [] => none
    | c :: cs => if c == rbrace then some (JVal.jobj [], cs) else parseMembers f (c :: cs) []

/-- Parse the non-empty member list of an object. -/
def parseMembers : Nat → List Char → List (List Char × JVal) →
    Option (JVal × List Char)
  | 0, _, _ => none
  | f + 1, l, acc =>
    match l with
    | c :: cs =>
      if c == dquote then
        match parseStringRest cs with
        | none => none
        | some (k, r1) =>
          match skipWs r1 with
          | ':' :: r2 =>
            match parseValue f (skipWs r2) with
            | none => none
            | some (v, r3) =>
              match skipWs r3 with
              | ',' :: r4 => parseMembers f (skipWs r4) (acc ++ [(k, v)])
              | c2 :: r4 =>
                if c2 == rbrace then some (JVal.jobj (acc ++ [(k, v)]), r4) else none
              | [] => none
          | _ => none
      else none
    | [] => none

/-- Parse an array body, the opening bracket having been consumed. -/
def parseArrBody : Nat → List Char → Option (JVal × List Char)
  | 0, _ => none
  | f + 1, l =>
    match skipWs l with
    | [] => none
    | c :: cs => if c == ']' then some (JVal.jarr [], cs) else parseItems f (c :: cs) []

/-- Parse the non-empty item list of an array. -/
def parseItems : Nat → List Char → List JVal → Option (JVal × List Char)
  | 0, _, _ => none
  | f + 1, l, acc =>
    match parseValue f l with
    | none => none
    | some (v, r1) =>
      match skipWs r1 with
      | ',' :: r2 => parseItems f (skipWs r2) (acc ++ [v])
      | ']' :: r2 => some (JVal.jarr (acc ++ [v]), r2)
      | _ => none

end

/-- Model of Python `json.loads`: parse one value, then require that only
whitespace remains (otherwise `json.loads` raises "Extra data"). -/
def jsonLoads (l : List Char) : Option JVal :=
  match parseValue (2 * l.length + 2) (skipWs l) with
  | some (v, rest) => if skipWs rest = [] then some v else none
  | none => none

example : jsonLoads ("\x7b\"a\": 1\x7d").data = some (JVal.jobj [("a".data, JVal.jnum "1".data)]) := rfl
example : jsonLoads ("[]").data = some (JVal.jarr []) := rfl
example : jsonLoads ("\x7b\"a\": \",\x7d\"\x7d").data
    = some (JVal.jobj [("a".data, JVal.jstr [',', rbrace])]) := rfl
example : jsonLoads ("hello").data = none := rfl
example : jsonLoads (" [1, true, null, \"x\"] ").data
    = some (JVal.jarr [JVal.jnum "1".data, JVal.jbool true, JVal.jnull, JVal.jstr "x".data]) := rfl
example : jsonLoads ("\x7b\"Titel\": \"Konzert\", \"Datum\": \"2024-05-01\"").data = none := rfl
example : jsonLoads ("-12.5e+3").data = some (JVal.jnum "-12.5e+3".data) := rfl
example : jsonLoads ("[1,]").data = none := rfl

/-- Inner scan of `Extractor._extract_json_substring`: starting from an opening
bracket, walk the text tracking the nesting depth of the chosen bracket pair;
return the length of the prefix at which the depth first returns to zero.
The depth check mirrors the Python code (decrement, then test for zero). -/
def innerScan (oc cc : Char) : Int → List Char → Option Nat
  | _, [] => none
  | d, c :: cs =>
    if c == oc then (innerScan oc cc (d + 1) cs).map (· + 1)
    else if c == cc then
      if d = 1 then some 1 else (innerScan oc cc (d - 1) cs).map (· + 1)
    else (innerScan oc cc d cs).map (· + 1)

/-- Outer scan of `Extractor._extract_json_substring`: try every position
holding an opening brace or bracket, left to right, and return the first
balanced substring found. -/
def outerScan : List Char → Option (List Char)
  | [] => none
  | c :: cs =>
    if c == lbrace || c == '[' then
      let cc := if c == lbrace then rbrace else ']'
      match innerScan c cc 0 (c :: cs) with
      | some len => some ((c :: cs).take len)
      | none => outerScan cs
    else outerScan cs

/-- `Extractor._extract_json_substring`: first balanced JSON-like substring of
the text, or nothing. -/
def extractJsonSubstring (t : List Char) : Option (List Char) :=
  if t = [] then none else outerScan t

/-- `Extractor._complete_truncated_json`: append one closing brace per
unmatched opening brace, then one closing bracket per unmatched opening
bracket. -/
def completeTruncated (t : List Char) : List Char :=
  t ++ List.replicate (t.count lbrace - t.count rbrace) rbrace
    ++ List.replicate (t.count '[' - t.count ']') ']'

/-- `Extractor._parse_ai_response` on a string argument: strip and clean the
text, try a direct parse, then the first balanced substring, then the
truncation completion of that substring; `none` models the final
`ValueError`.  (The Python pass-through branches for arguments that are
already a dict or list do not arise for string completions.) -/
def parse_ai_response (s : List Char) : Option JVal :=
  match jsonLoads (defaultCleanup (pyStrip s)) with
  | some v => some v
  | none =>
    match extractJsonSubstring (defaultCleanup (pyStrip s)) with
    | none => none
    | some cand =>
      match jsonLoads (defaultCleanup cand) with
      | some v => some v
      | none => jsonLoads (defaultCleanup (completeTruncated (defaultCleanup cand)))

example : parse_ai_response ("\x7b\"a\": 1\x7d").data
    = some (JVal.jobj [("a".data, JVal.jnum "1".data)]) := rfl
example : parse_ai_response ("\x7b\"Titel\": \"Konzert\", \"Datum\": \"2024-05-01\"").data = none := rfl
example : parse_ai_response ("prose before \x7b\"a\": null\x7d after").data
    = some (JVal.jobj [("a".data, JVal.jnull)]) := rfl
example : parse_ai_response ("\x7b\"a\": \",\x7d\"\x7d").data
    = some (JVal.jobj [("a".data, JVal.jstr [rbrace])]) := rfl
example : parse_ai_response ("  [1, 2,] ").data = some (JVal.jarr [JVal.jnum "1".data, JVal.jnum "2".data]) := rfl

/-- A calendar date as carried by a Python `datetime` (time-of-day components
are irrelevant to every claim and are omitted). -/
structure DT : Type where
  y : Nat
  m : Nat
  d : Nat
deriving DecidableEq, Repr

/-- Gregorian leap-year test, as used by `datetime`'s validation. -/
def isLeap (y : Nat) : Bool := (y % 4 = 0 && y % 100 ≠ 0) || y % 400 = 0

/-- Days in a month, as used by `datetime`'s validation. -/
def daysInMonth (y m : Nat) : Nat :=
  if m = 2 then (if isLeap y then 29 else 28)
  else if m = 4 || m = 6 || m = 9 || m = 11 then 30
  else 31

/-- Validity check performed when a `datetime` is constructed. -/
def validYMD (y m d : Nat) : Bool :=
  1 ≤ y && y ≤ 9999 && 1 ≤ m && m ≤ 12 && 1 ≤ d && d ≤ daysInMonth y m

/-- Decimal value of a digit character. -/
def digitVal (c : Char) : Nat := c.toNat - 48

/-- Greedily read one or two digits (the field patterns of `strptime`'s
`%d` and `%m` directives, simplified to a greedy two-digit read; the outcomes
agree on every input evaluated here since out-of-range values are rejected by
the validity check). -/
def take2Digits : List Char → Option (Nat × List Char)
  | [] => none
  | [a] => if a.isDigit then some (digitVal a, []) else none
  | a :: b :: rest =>
    if a.isDigit then
      if b.isDigit then some (digitVal a * 10 + digitVal b, rest)
      else some (digitVal a, b :: rest)
    else none

/-- Read exactly four digits (`strptime`'s `%Y`). -/
def take4Digits : List Char → Option (Nat × List Char)
  | a :: b :: c :: d :: rest =>
    if a.isDigit && b.isDigit && c.isDigit && d.isDigit then
      some (digitVal a * 1000 + digitVal b * 100 + digitVal c * 10 + digitVal d, rest)
    else none
  | _ => none

/-- Read exactly two digits and apply `strptime`'s `%y` century rule. -/
def take2Year : List Char → Option (Nat × List Char)
  | a :: b :: rest =>
    if a.isDigit && b.isDigit then
      let v := digitVal a * 10 + digitVal b
      some (if v ≤ 68 then 2000 + v else 1900 + v, rest)
    else none
  | _ => none

/-- `datetime.strptime` with format `%d<sep>%m<sep>%Y` (or `%y` when
`year4` is false): the whole string must be consumed and the date valid. -/
def fmtDMY (sep : Char) (year4 : Bool) (l : List Char) : Option DT :=
  match take2Digits l with
  | none => none
  | some (d, r1) =>
    match r1 with
    | s1 :: r2 =>
      if s1 == sep then
        match take2Digits r2 with
        | none => none
        | some (m, r3) =>
          match r3 with
          | s2 :: r4 =>
            if s2 == sep then
              match (if year4 then take4Digits r4 else take2Year r4) with
              | none => none
              | some (y, r5) =>
                if r5 = [] && validYMD y m d then some ⟨y, m, d⟩ else none
            else none
          | [] => none
      else none
    | [] => none

/-- `datetime.strptime` with format `%Y<sep>%m<sep>%d`. -/
def fmtYMD (sep : Char) (l : List Char) : Option DT :=
  match take4Digits l with
  | none => none
  | some (y, r1) =>
    match r1 with
    | s1 :: r2 =>
      if s1 == sep then
        match take2Digits r2 with
        | none => none
        | some (m, r3) =>
          match r3 with
          | s2 :: r4 =>
            if s2 == sep then
              match take2Digits r4 with
              | none => none
              | some (d, r5) =>
                if r5 = [] && validYMD y m d then some ⟨y, m, d⟩ else none
            else none
          | [] => none
      else none
    | [] => none

/-- The `common_formats` loop of `Event.__post_init__`: the six explicit
`strptime` formats, tried in order. -/
def tryFormats (l : List Char) : Option DT :=
  (fmtDMY '.' true l) <|> (fmtDMY '.' false l) <|> (fmtDMY '/' true l) <|>
    (fmtDMY '/' false l) <|> (fmtYMD '-' l) <|> (fmtYMD '/' l)

/-- `datetime.fromisoformat`, restricted to the plain calendar-date form
`YYYY-MM-DD` (the only ISO form any input of this development can take; every
other input evaluated here fails `fromisoformat` in Python as well). -/
def isoParse (l : List Char) : Option DT :=
  match l with
  | [y1, y2, y3, y4, h1, m1, m2, h2, d1, d2] =>
    if y1.isDigit && y2.isDigit && y3.isDigit && y4.isDigit && h1 == '-' &&
        m1.isDigit && m2.isDigit && h2 == '-' && d1.isDigit && d2.isDigit then
      let y := digitVal y1 * 1000 + digitVal y2 * 100 + digitVal y3 * 10 + digitVal y4
      let m := digitVal m1 * 10 + digitVal m2
      let d := digitVal d1 * 10 + digitVal d2
      if validYMD y m d then some ⟨y, m, d⟩ else none
    else none
  | _ => none

/-- Letter test used to delimit the alphabetic tokens a `dateutil`-style
lexer extracts (ASCII letters plus non-ASCII characters such as umlauts,
which Python's `str.isalpha` also accepts). -/
def isLetter (c : Char) : Bool := c.isAlpha || 127 < c.toNat

/-- Fuelled extraction of the maximal alphabetic runs of a string. -/
def alphaTokensAux : Nat → List Char → List (List Char)
  | 0, _ => []
  | _, [] => []
  | f + 1, c :: cs =>
    if isLetter c then (c :: cs.takeWhile isLetter) :: alphaTokensAux f (cs.dropWhile isLetter)
    else alphaTokensAux f cs

/-- The maximal alphabetic runs of a string. -/
def alphaTokens (l : List Char) : List (List Char) := alphaTokensAux l.length l

/-- The alphabetic tokens recognized by `dateutil.parser.parse` with its
default (English) parser info: jump words, month names, weekday names,
hour/minute/second words, am/pm markers and common timezone names. -/
def knownToks : List (List Char) :=
  (["at", "on", "and", "ad", "m", "t", "of", "st", "nd", "rd", "th",
    "january", "february", "march", "april", "may", "june", "july", "august",
    "september", "october", "november", "december",
    "jan", "feb", "mar", "apr", "jun", "jul", "aug", "sep", "sept", "oct", "nov", "dec",
    "monday", "tuesday", "wednesday", "thursday", "friday", "saturday", "sunday",
    "mon", "tue", "wed", "thu", "fri", "sat", "sun",
    "h", "hour", "hours", "minute", "minutes", "second", "seconds",
    "am", "pm", "a", "p", "utc", "gmt", "z"]).map String.data

/-- Whether the string contains an alphabetic token unknown to `dateutil`'s
default parser info (such tokens make `dateutil.parser.parse` raise). -/
def hasUnknownTok (l : List Char) : Bool :=
  (alphaTokens l).any (fun t => !(knownToks.contains (t.map Char.toLower)))

/-- Specification of the external `dateutil.parser.parse` collaborator at its
boundary: a string containing an alphabetic token unknown to the default
parser info is rejected.  Every date-claim theorem is quantified over any
loose parser satisfying this documented behavior. -/
def duRejects (du : List Char → Option DT) : Prop :=
  ∀ s : List Char, hasUnknownTok s = true → du s = none

/-- The `_try_parse` helper of `Event.__post_init__`: strip, then ISO parse,
then the six explicit formats, then the loose `dateutil` parse `du`. -/
def tryParseDate (du : List Char → Option DT) (s0 : List Char) : Option DT :=
  let s := pyStrip s0
  match isoParse s with
  | some d => some d
  | none =>
    match tryFormats s with
    | some d => some d
    | none => du s

/-- The date resolution of `Event.__post_init__` for the date value received
from the parsed JSON: `none` (key missing or JSON `null`) stays `none`; a
non-string value becomes `none`; a string is parsed by `_try_parse`, retried
with the current year appended (no separating space) on failure. -/
def resolveDate (du : List Char → Option DT) (now : DT) (raw : Option JVal) : Option DT :=
  match raw with
  | none => none
  | some (JVal.jstr s) =>
    match tryParseDate du s with
    | some d => some d
    | none => tryParseDate du (s ++ (toString now.y).data)
  | some _ => none

example : tryFormats ("01.05.2024").data = some ⟨2024, 5, 1⟩ := rfl
example : isoParse ("2024-05-01").data = some ⟨2024, 5, 1⟩ := rfl
example : isoParse ("01.05.2024").data = none := rfl
example : tryFormats ("12. März").data = none := rfl
example : hasUnknownTok ("12. März2024").data = true := rfl
example : hasUnknownTok ("not a date").data = true := rfl
example : alphaTokens ("not a date2024").data = ["not".data, "a".data, "date".data] := rfl

/-- Python `dict.get` on the association list of a parsed JSON object:
the last binding of a duplicated key wins (as in dict construction). -/
def jGet : List (List Char × JVal) → List Char → Option JVal
  | [], _ => none
  | (k, v) :: rest, key =>
    match jGet rest key with
    | some w => some w
    | none => if k = key then some v else none

/-- `dict.get` as seen by the `Event` constructor: a JSON `null` value was
decoded by `json.loads` to Python `None`, indistinguishable from a missing
key. -/
def pyGet (kvs : List (List Char × JVal)) (key : List Char) : Option JVal :=
  match jGet kvs key with
  | some JVal.jnull => none
  | r => r

/-- The `Event` dataclass after `__post_init__` has run: source path, the
recognized text, the optional raw title/time/location values from the model's
JSON, and the resolved date. -/
structure Event : Type where
  src : List Char
  original_text : List Char
  title : Option JVal
  time : Option JVal
  location : Option JVal
  date : Option DT

/-- Construction of an `Event` from one parsed JSON object inside
`Extractor.extract` (keyword arguments `Titel`/`Datum`/`Uhrzeit`/`Ort`),
with the date resolved by `__post_init__`. -/
def mkEvent (du : List Char → Option DT) (now : DT) (src text : List Char)
    (kvs : List (List Char × JVal)) : Event :=
  { src := src
    original_text := text
    title := pyGet kvs ("Titel").data
    time := pyGet kvs ("Uhrzeit").data
    location := pyGet kvs ("Ort").data
    date := resolveDate du now (pyGet kvs ("Datum").data) }

/-- The degraded fallback `Event(src=image, original_text=text)` built when
parsing fails: the omitted date argument takes the dataclass default
`datetime.now()`, so the resolved date is the "now" sentinel. -/
def fallbackEvent (now : DT) (src text : List Char) : Event :=
  { src := src
    original_text := text
    title := none
    time := none
    location := none
    date := some now }

/-- Association list of a JSON object value, empty for any other value
(only consulted after `isObjV` has succeeded). -/
def objKvs : JVal → List (List Char × JVal)
  | JVal.jobj kvs => kvs
  | _ => []

/-- Whether a JSON value is an object (a Python dict, on which `.get` is
defined). -/
def isObjV : JVal → Bool
  | JVal.jobj _ => true
  | _ => false

/-- `Extractor.extract`, with a successful OCR result `words` and the model
completion given: join the words, parse the completion with the recovery
parser, and build the events.  A parse failure, or a parsed value on which
`.get` raises (a non-dict scalar at top level, or any non-dict element inside
a list, which aborts the list comprehension), is caught by the `except` arm
and yields the single degraded fallback event. -/
def extract (du : List Char → Option DT) (now : DT) (image : List Char)
    (words : List (List Char)) (completion : List Char) : List Event :=
  let text := joinSp words
  match parse_ai_response completion with
  | some (JVal.jarr xs) =>
    if xs.all isObjV then xs.map (fun v => mkEvent du now image text (objKvs v))
    else [fallbackEvent now image text]
  | some (JVal.jobj kvs) => [mkEvent du now image text kvs]
  | some _ => [fallbackEvent now image text]
  | none => [fallbackEvent now image text]

/-- Python `name.split("_")` (split on every underscore).  The recursive call
always returns a non-empty list, so prepending to its head is total. -/
def splitU : List Char → List (List Char)
  | [] => [[]]
  | c :: cs =>
    if c = '_' then [] :: splitU cs
    else (c :: (splitU cs).headD []) :: (splitU cs).tail

/-- Python `"_".join(groups)`. -/
def interU : List (List Char) → List Char
  | [] => []
  | [g] => g
  | g :: g2 :: gs => g ++ '_' :: interU (g2 :: gs)

/-- `pathlib.PurePath.suffix` of a file name: the part from the last dot,
provided that dot is neither the first nor the last character. -/
def pySuffix (l : List Char) : List Char :=
  match l.reverse.dropWhile (fun c => !(c == '.')) with
  | [] => []
  | _ :: before =>
    if (l.reverse.takeWhile (fun c => !(c == '.'))).isEmpty || before.isEmpty then []
    else '.' :: (l.reverse.takeWhile (fun c => !(c == '.'))).reverse

/-- `pathlib.PurePath.stem` (also the name after `with_suffix("")`): the file
name with its suffix removed. -/
def pyStem (l : List Char) : List Char := l.take (l.length - (pySuffix l).length)

/-- `DownloadedPhoto.name`: all underscore-separated parts of the full file
name except the last, rejoined with underscores. -/
def photoName (fname : List Char) : List Char := interU (splitU fname).dropLast

/-- `DownloadedPhoto.id`: the last underscore-separated part of the file name
with its suffix removed. -/
def photoId (fname : List Char) : List Char := ((splitU (pyStem fname)).getLastD [])

/-- The media-type discriminator of a post. -/
inductive MediaType : Type where
  | photo : MediaType
  | video : MediaType
deriving DecidableEq, Repr

/-- A post as returned by the network collaborator: its id (`pk`), its
creation time (newest-first listings are descending in this field) and its
media type. -/
structure Post : Type where
  pk : List Char
  time : Nat
  media : MediaType
deriving DecidableEq, Repr

/-- The cursor computation at the top of `update_posts`: the id of the first
photo the new-photos directory listing presents, else the first of the
processed listing, else nothing. -/
def computeCursor (newL procL : List (List Char)) : Option (List Char) :=
  match newL with
  | f :: _ => some (photoId f)
  | [] =>
    match procL with
    | f :: _ => some (photoId f)
    | [] => none

/-- The download loop of `update_posts`: walk the posts in order, stop at the
cursor id or at the download cap, download the posts of the requested media
type; returns the downloaded posts in order. -/
def downloadLoop (ty : MediaType) (maxD : Nat) : List Post → Option (List Char) → Nat → List Post
  | [], _, _ => []
  | p :: ps, cur, counter =>
    if some p.pk = cur ∨ maxD ≤ counter then []
    else if p.media = ty then p :: downloadLoop ty maxD ps cur (counter + 1)
    else downloadLoop ty maxD ps cur counter

/-- `MediaHandler.update_posts` as a function from the directory listings and
the collaborator's post list to the list of downloaded posts. -/
def updatePosts (newL procL : List (List Char)) (posts : List Post)
    (ty : MediaType) (maxD : Nat) : List Post :=
  downloadLoop ty maxD posts (computeCursor newL procL) 0

/-- The two photo directories, as their listings. -/
structure PhotoStore : Type where
  newDir : List (List Char)
  procDir : List (List Char)
deriving DecidableEq, Repr

/-- `MediaHandler.mark_photo_as_processed`: rename the photo out of the new
directory into the processed directory (an existing file of the same name is
overwritten by `rename`, so the processed listing gains at most one entry). -/
def markPhotoAsProcessed (st : PhotoStore) (fname : List Char) : PhotoStore :=
  { newDir := st.newDir.erase fname
    procDir := if fname ∈ st.procDir then st.procDir else st.procDir ++ [fname] }

/-- The `marked_wrapper` closure registered by `add_on_new_photo_callback`:
run the handler, then mark the photo processed.  A handler that raises
propagates its exception before the marking line runs, leaving the store
unchanged. -/
def markedWrapper (cb : List Char → Except Nat Unit) (photo : List Char)
    (st : PhotoStore) : Except Nat Unit × PhotoStore :=
  match cb photo with
  | Except.ok r => (Except.ok r, markPhotoAsProcessed st photo)
  | Except.error e => (Except.error e, st)

example : photoId ("photo_name_12345.jpg").data = ("12345").data := rfl
example : photoName ("photo_name_12345.jpg").data = ("photo_name").data := rfl
example : photoId ("photo.jpg").data = ("photo").data := rfl
example : photoName ("photo.jpg").data = [] := rfl
example : pySuffix ("a_b.jpg").data = (".jpg").data := rfl
example : pyStem ("a_b.jpg").data = ("a_b").data := rfl
example : extract (fun _ => none) ⟨2024, 5, 1⟩ ("i").data [("t").data] ("[]").data = [] := rfl
example :
    extract (fun _ => none) ⟨2024, 5, 1⟩ ("i").data [("t").data] ("kein JSON hier").data
      = [fallbackEvent ⟨2024, 5, 1⟩ ("i").data ("t").data] := rfl

/-- The suffix of the file name after its last underscore (the spec-side
reading of "the part of the stem after the last underscore"). -/
def afterLastU (l : List Char) : List Char :=
  (l.reverse.takeWhile (fun c => !(c == '_'))).reverse

/-- The prefix of the file name strictly before its last underscore. -/
def beforeLastU (l : List Char) : List Char :=
  ((l.reverse.dropWhile (fun c => !(c == '_'))).tail).reverse

lemma pyReplaceAux_no_occ (p : Char) (ps rep : List Char) :
    ∀ (f : Nat) (l : List Char), ¬ ((p :: ps) <:+: l) → pyReplaceAux p ps rep f l = l := by
  intro f
  induction f with
  | zero => intro l _; cases l <;> rfl
  | succ f ih =>
    intro l h
    cases l with
    | nil => rfl
    | cons c cs =>
      have hpre : ¬ ((p :: ps).isPrefixOf (c :: cs) = true) := by
        intro hb
        have hb2 := List.isPrefixOf_iff_prefix.1 hb
        have hb3 := List.IsPrefix.isInfix hb2
        exact h hb3
      simp only [pyReplaceAux, if_neg hpre]
      refine congrArg (c :: ·) (ih cs ?_)
      intro hin
      have hin2 : (p :: ps) <:+: c :: cs := List.infix_cons hin
      exact h hin2

lemma pyReplace_no_occ (p : Char) (ps rep : List Char) (l : List Char)
    (h : ¬ ((p :: ps) <:+: l)) : pyReplace p ps rep l = l :=
  pyReplaceAux_no_occ p ps rep l.length l h

lemma defaultCleanup_id (t : List Char) (h1 : ¬ (['\n'] <:+: t)) (h2 : ¬ ([squote] <:+: t))
    (h3 : ¬ ([',', rbrace] <:+: t)) (h4 : ¬ ([',', ']'] <:+: t)) : defaultCleanup t = t := by
  unfold defaultCleanup
  rw [pyReplace_no_occ _ _ _ _ h1, pyReplace_no_occ _ _ _ _ h2,
    pyReplace_no_occ _ _ _ _ h3, pyReplace_no_occ _ _ _ _ h4]

lemma splitU_ne_nil : ∀ l : List Char, splitU l ≠ [] := by
  intro l
  cases l with
  | nil => simp [splitU]
  | cons c cs => by_cases hc : c = '_' <;> simp [splitU, hc]

lemma splitU_of_not_mem {l : List Char} (h : '_' ∉ l) : splitU l = [l] := by
  induction l with
  | nil => rfl
  | cons c cs ih =>
    have hc : ¬ c = '_' := fun e => h (by rw [e]; exact List.mem_cons_self _ _)
    have hcs : '_' ∉ cs := fun m => h (List.mem_cons_of_mem _ m)
    simp [splitU, hc, ih hcs]

lemma splitU_append (l r : List Char) : splitU (l ++ '_' :: r) = splitU l ++ splitU r := by
  induction l with
  | nil => simp [splitU]
  | cons c cs ih =>
    by_cases hc : c = '_'
    · subst hc
      simp [splitU, ih]
    · cases h : splitU cs with
      | nil => exact absurd h (splitU_ne_nil cs)
      | cons g gs => simp [splitU, hc, ih, h]

lemma interU_splitU : ∀ l : List Char, interU (splitU l) = l := by
  intro l
  induction l with
  | nil => rfl
  | cons c cs ih =>
    cases h : splitU cs with
    | nil => exact absurd h (splitU_ne_nil cs)
    | cons g gs =>
      by_cases hc : c = '_'
      · subst hc
        have e1 : splitU ('_' :: cs) = [] :: splitU cs := by simp [splitU]
        have hi : interU (g :: gs) = cs := by rw [← h]; exact ih
        rw [e1, h]
        show [] ++ '_' :: interU (g :: gs) = '_' :: cs
        rw [hi]
        rfl
      · have e1 : splitU (c :: cs) = (c :: (splitU cs).headD []) :: (splitU cs).tail := by
          simp [splitU, hc]
        rw [e1, h]
        cases gs with
        | nil =>
          have hg : g = cs := by
            have hi : interU [g] = cs := by rw [← h]; exact ih
            exact hi
          simp [interU, hg]
        | cons g2 gs2 =>
          have hi : g ++ '_' :: interU (g2 :: gs2) = cs := by
            have hi0 : interU (g :: g2 :: gs2) = cs := by rw [← h]; exact ih
            rw [interU] at hi0
            exact hi0
          show interU ((c :: g) :: g2 :: gs2) = c :: cs
          rw [interU, ← hi]
          simp

lemma split_at_first (u : Char) (r : List Char) (h : u ∈ r) :
    ∃ t b, r = t ++ u :: b ∧ u ∉ t ∧
      r.takeWhile (fun c => !(c == u)) = t ∧ r.dropWhile (fun c => !(c == u)) = u :: b := by
  induction r with
  | nil => cases h
  | cons c cs ih =>
    by_cases hc : c = u
    · subst hc
      exact ⟨[], cs, rfl, by simp, by simp [List.takeWhile_cons], by simp [List.dropWhile_cons]⟩
    · have hcs : u ∈ cs := by
        rcases List.mem_cons.1 h with h' | h'
        · exact absurd h'.symm hc
        · exact h'
      obtain ⟨t, b, hr, hnt, htk, hdr⟩ := ih hcs
      refine ⟨c :: t, b, by rw [List.cons_append, ← hr], ?_, ?_, ?_⟩
      · intro hm
        rcases List.mem_cons.1 hm with h' | h'
        · exact hc h'.symm
        · exact hnt h'
      · have hb : (!(c == u)) = true := by simp [hc]
        simp [List.takeWhile_cons, hb, htk]
      · have hb : (!(c == u)) = true := by simp [hc]
        simp [List.dropWhile_cons, hb, hdr]

lemma dropWhile_head_false (p : Char → Bool) :
    ∀ (l : List Char) (x : Char) (xs : List Char), l.dropWhile p = x :: xs → p x = false := by
  intro l
  induction l with
  | nil => intro x xs h; simp [List.dropWhile] at h
  | cons c cs ih =>
    intro x xs h
    rw [List.dropWhile_cons] at h
    by_cases hc : p c = true
    · rw [if_pos hc] at h; exact ih _ _ h
    · rw [if_neg hc] at h
      cases h
      simpa using hc

lemma pySuffix_of_no_dot (l : List Char) (h : '.' ∉ l) : pySuffix l = [] := by
  have hd : l.reverse.dropWhile (fun c => !(c == '.')) = [] := by
    rw [List.dropWhile_eq_nil_iff]
    intro x hx
    have hne : x ≠ '.' := fun e => h (List.mem_reverse.1 (e ▸ hx))
    simp [hne]
  unfold pySuffix
  rw [hd]

lemma pyStem_append_pySuffix (l : List Char) : pyStem l ++ pySuffix l = l := by
  by_cases hdot : '.' ∈ l
  · obtain ⟨t, b, hr, _, htk, hdr⟩ :=
      split_at_first '.' l.reverse (List.mem_reverse.2 hdot)
    have hl : l = b.reverse ++ '.' :: t.reverse := by
      conv_lhs => rw [← l.reverse_reverse, hr]
      simp
    by_cases hcond : (t.isEmpty || b.isEmpty) = true
    · have hs : pySuffix l = [] := by
        unfold pySuffix
        rw [hdr, htk]
        show (if (t.isEmpty || b.isEmpty) = true then ([] : List Char) else '.' :: t.reverse) = []
        rw [if_pos hcond]
      rw [hs]
      unfold pyStem
      rw [hs]
      simp
    · have hs : pySuffix l = '.' :: t.reverse := by
        unfold pySuffix
        rw [hdr, htk]
        show (if (t.isEmpty || b.isEmpty) = true then ([] : List Char) else '.' :: t.reverse)
            = '.' :: t.reverse
        rw [if_neg hcond]
      unfold pyStem
      rw [hs]
      conv_lhs => rw [hl]
      have hlen : (b.reverse ++ '.' :: t.reverse).length - ('.' :: t.reverse).length
          = b.reverse.length := by simp
      rw [hl, hlen, List.take_left]
  · have hs : pySuffix l = [] := pySuffix_of_no_dot l hdot
    unfold pyStem
    rw [hs]
    simp

lemma last_underscore_split (l : List Char) (h : '_' ∈ l) :
    l = beforeLastU l ++ '_' :: afterLastU l ∧ '_' ∉ afterLastU l := by
  obtain ⟨t, b, hr, hnt, htk, hdr⟩ := split_at_first '_' l.reverse (List.mem_reverse.2 h)
  constructor
  · unfold beforeLastU afterLastU
    rw [htk, hdr]
    conv_lhs => rw [← l.reverse_reverse, hr]
    simp
  · unfold afterLastU
    rw [htk]
    simpa [List.mem_reverse] using hnt

lemma downloadLoop_pk_ne (ty : MediaType) (maxD : Nat) :
    ∀ (posts : List Post) (c : List Char) (k : Nat) (p : Post),
      p ∈ downloadLoop ty maxD posts (some c) k → p.pk ≠ c := by
  intro posts
  induction posts with
  | nil => intro c k p hp; simp [downloadLoop] at hp
  | cons q ps ih =>
    intro c k p hp
    by_cases h1 : some q.pk = some c ∨ maxD ≤ k
    · simp only [downloadLoop, if_pos h1] at hp
      cases hp
    · simp only [downloadLoop, if_neg h1] at hp
      by_cases h2 : q.media = ty
      · rw [if_pos h2] at hp
        rcases List.mem_cons.1 hp with rfl | hmem
        · exact fun e => h1 (Or.inl (by rw [e]))
        · exact ih c (k + 1) p hmem
      · rw [if_neg h2] at hp
        exact ih c k p hp

lemma downloadLoop_newer (ty : MediaType) (maxD : Nat) :
    ∀ (posts : List Post) (c : List Char) (k : Nat) (cp : Post),
      List.Pairwise (fun a b => b.time < a.time) posts → cp ∈ posts → cp.pk = c →
      ∀ p ∈ downloadLoop ty maxD posts (some c) k, cp.time < p.time := by
  intro posts
  induction posts with
  | nil => intro c k cp _ hcp; cases hcp
  | cons q ps ih =>
    intro c k cp hpw hcp hpk p hp
    rcases List.mem_cons.1 hcp with rfl | hcp'
    · have h1 : some cp.pk = some c ∨ maxD ≤ k := Or.inl (by rw [hpk])
      simp only [downloadLoop, if_pos h1] at hp
      cases hp
    · by_cases h1 : some q.pk = some c ∨ maxD ≤ k
      · simp only [downloadLoop, if_pos h1] at hp
        cases hp
      · simp only [downloadLoop, if_neg h1] at hp
        have hq : ∀ b ∈ ps, b.time < q.time := (List.pairwise_cons.1 hpw).1
        have hpw' := (List.pairwise_cons.1 hpw).2
        by_cases h2 : q.media = ty
        · rw [if_pos h2] at hp
          rcases List.mem_cons.1 hp with rfl | hmem
          · exact hq cp hcp'
          · exact ih c (k + 1) cp hpw' hcp' hpk p hmem
        · rw [if_neg h2] at hp
          exact ih c k cp hpw' hcp' hpk p hp

lemma downloadLoop_nil_of_find (ty : MediaType) (maxD : Nat) :
    ∀ (posts : List Post) (p : Post), posts.find? (fun q => q.media == ty) = some p →
      ∀ k, downloadLoop ty maxD posts (some p.pk) k = [] := by
  intro posts
  induction posts with
  | nil => intro p h; simp at h
  | cons q ps ih =>
    intro p h k
    by_cases h1 : some q.pk = some p.pk ∨ maxD ≤ k
    · simp only [downloadLoop, if_pos h1]
    · by_cases h2 : q.media = ty
      · have hq : (q.media == ty) = true := beq_iff_eq.2 h2
        simp only [List.find?_cons, hq] at h
        have hqp : q = p := Option.some.inj h
        exact absurd (Or.inl (by rw [hqp])) h1
      · have hq : (q.media == ty) = false := by simpa using h2
        simp only [List.find?_cons, hq] at h
        simp only [downloadLoop, if_neg h1, if_neg h2]
        exact ih p h k

/-- C1: the claim says that on the completion text consisting of a JSON object
missing its closing brace, `_parse_ai_response` reaches the
truncation-rebalancing stage and returns the object obtained by appending the
brace.  In fact the balanced-substring extractor finds no balanced substring
in brace-unbalanced text, so the rebalancing stage is never reached and the
parser signals failure (modelled as `none`); the second conjunct shows the
same input with the closing brace appended does parse to the claimed object,
so the failure is not vacuous. -/
theorem c1_truncation_repair_unreachable :
    parse_ai_response (("\x7b\"Titel\": \"Konzert\", \"Datum\": \"2024-05-01\"").data) = none ∧
    jsonLoads ((("\x7b\"Titel\": \"Konzert\", \"Datum\": \"2024-05-01\"").data) ++ [rbrace])
      = some (JVal.jobj [(("Titel").data, JVal.jstr ("Konzert").data),
          (("Datum").data, JVal.jstr ("2024-05-01").data)]) :=
  ⟨rfl, rfl⟩

/-- C3 counterexample: with the new-photos directory holding a photo of id 5
(a post of time 5 that the collaborator no longer returns), the cycle
downloads the returned post of id 3, which is older than the cursor (time 3
is less than 5) — refuting "never downloads a post whose id equals or is
older than the current cursor" when the cursor id does not occur in the
returned sequence. -/
theorem c3_downloads_older_post_when_cursor_absent :
    computeCursor [("x_5.jpg").data] [] = some (("5").data) ∧
    updatePosts [("x_5.jpg").data] [] [⟨("3").data, 3, MediaType.photo⟩] MediaType.photo 20
      = [⟨("3").data, 3, MediaType.photo⟩] ∧
    (3 : Nat) < 5 ∧ ("3").data ≠ ("5").data :=
  ⟨rfl, rfl, by decide, by decide⟩

/-- C3 (amended): an acquisition cycle never downloads a post whose id equals
the cursor; and whenever the cursor's id occurs in the returned,
strictly newest-first post sequence, every downloaded post is strictly newer
than the cursor's post.  When the cursor's id does not occur in the sequence,
older posts can be downloaded (see the counterexample). -/
theorem c3_no_download_at_or_older_than_present_cursor (ty : MediaType) (maxD : Nat)
    (posts : List Post) (c : List Char) :
    (∀ p ∈ downloadLoop ty maxD posts (some c) 0, p.pk ≠ c) ∧
    (List.Pairwise (fun a b => b.time < a.time) posts →
      ∀ cp ∈ posts, cp.pk = c →
        ∀ p ∈ downloadLoop ty maxD posts (some c) 0, cp.time < p.time) :=
  ⟨fun p hp => downloadLoop_pk_ne ty maxD posts c 0 p hp,
   fun hpw cp hcp hpk p hp => downloadLoop_newer ty maxD posts c 0 cp hpw hcp hpk p hp⟩

/-- C3 witness: on the concrete newest-first sequence of posts 9, 5, 3 with
cursor id 5, the downloaded post 9 has an id different from the cursor and is
strictly newer. -/
theorem c3_no_download_witness :
    (⟨("9").data, 9, MediaType.photo⟩ : Post).pk ≠ ("5").data ∧ (5 : Nat) < 9 := by
  have h := c3_no_download_at_or_older_than_present_cursor MediaType.photo 20
    [⟨("9").data, 9, MediaType.photo⟩, ⟨("5").data, 5, MediaType.photo⟩,
      ⟨("3").data, 3, MediaType.photo⟩] (("5").data)
  refine ⟨h.1 _ (by decide), ?_⟩
  exact h.2 (by decide) ⟨("5").data, 5, MediaType.photo⟩ (by decide) rfl
    ⟨("9").data, 9, MediaType.photo⟩ (by decide)

/-- C4 counterexample: from an empty store, a cycle over the newest-first
posts 3, 2 downloads both; if the new-photos listing then presents the file
of post 2 first, the recomputed cursor is 2 and an immediate re-run with the
same posts downloads post 3 again — refuting idempotence "for every possible
listing order". -/
theorem c4_rerun_redownloads_under_reordered_listing :
    updatePosts [] [] [⟨("3").data, 3, MediaType.photo⟩, ⟨("2").data, 2, MediaType.photo⟩]
      MediaType.photo 20
      = [⟨("3").data, 3, MediaType.photo⟩, ⟨("2").data, 2, MediaType.photo⟩] ∧
    photoId (("p_3.jpg").data) = ("3").data ∧
    photoId (("p_2.jpg").data) = ("2").data ∧
    updatePosts [("p_2.jpg").data, ("p_3.jpg").data] []
      [⟨("3").data, 3, MediaType.photo⟩, ⟨("2").data, 2, MediaType.photo⟩] MediaType.photo 20
      = [⟨("3").data, 3, MediaType.photo⟩] ∧
    ([⟨("3").data, 3, MediaType.photo⟩] : List Post) ≠ [] :=
  ⟨rfl, rfl, rfl, rfl, by decide⟩

/-- C4 (amended): re-running an acquisition cycle downloads zero additional
photos whenever the recomputed cursor equals the id of the first post of the
requested media type in the sequence — i.e. whenever the new-photos listing
presents a photo of the newest downloaded post first; for listing orders
whose first photo is an older download, newer already-downloaded posts are
downloaded again (see the counterexample). -/
theorem c4_rerun_downloads_nothing_when_cursor_newest (posts : List Post) (ty : MediaType)
    (maxD : Nat) (p : Post) (hfind : posts.find? (fun q => q.media == ty) = some p) :
    downloadLoop ty maxD posts (some p.pk) 0 = [] :=
  downloadLoop_nil_of_find ty maxD posts p hfind 0

/-- C4 witness: with posts 3, 2 and cursor id 3 (the newest download), the
re-run downloads nothing. -/
theorem c4_rerun_witness :
    downloadLoop MediaType.photo 20
      [⟨("3").data, 3, MediaType.photo⟩, ⟨("2").data, 2, MediaType.photo⟩]
      (some (("3").data)) 0 = [] :=
  c4_rerun_downloads_nothing_when_cursor_newest _ _ _ ⟨("3").data, 3, MediaType.photo⟩
    (by decide)

/-- C7 counterexample: a handler that raises makes the wrapped callback
propagate the exception before the marking line runs, so the photo stays in
the new directory and never reaches the processed directory — refuting
"marks the photo processed regardless of what the handler does, in
particular also when the handler raises". -/
theorem c7_raising_handler_leaves_photo_unprocessed :
    (markedWrapper (fun _ => Except.error 7) (("a_1.jpg").data) ⟨[("a_1.jpg").data], []⟩).2
      = (⟨[("a_1.jpg").data], []⟩ : PhotoStore) ∧
    ("a_1.jpg").data ∉ ((markedWrapper (fun _ => Except.error 7) (("a_1.jpg").data)
      ⟨[("a_1.jpg").data], []⟩).2).procDir ∧
    ("a_1.jpg").data ∈ ((markedWrapper (fun _ => Except.error 7) (("a_1.jpg").data)
      ⟨[("a_1.jpg").data], []⟩).2).newDir :=
  ⟨rfl, by decide, by decide⟩

/-- C7 (amended): the wrapped callback marks the photo processed immediately
after the handler returns normally (the photo leaves the new listing and
appears in the processed listing); but when the handler raises, the exception
propagates before the marking line, the store is unchanged and the photo
remains unprocessed. -/
theorem c7_marking_follows_normal_return_only (cb : List Char → Except Nat Unit)
    (photo : List Char) (st : PhotoStore) (hmem : photo ∈ st.newDir)
    (hnd : st.newDir.Nodup) :
    (∀ r, cb photo = Except.ok r →
      (markedWrapper cb photo st).2 = markPhotoAsProcessed st photo ∧
      photo ∉ (markedWrapper cb photo st).2.newDir ∧
      photo ∈ (markedWrapper cb photo st).2.procDir) ∧
    (∀ e, cb photo = Except.error e →
      (markedWrapper cb photo st).2 = st ∧ photo ∈ (markedWrapper cb photo st).2.newDir) := by
  constructor
  · intro r hok
    have h2 : (markedWrapper cb photo st).2 = markPhotoAsProcessed st photo := by
      simp [markedWrapper, hok]
    refine ⟨h2, ?_, ?_⟩
    · rw [h2]
      show photo ∉ st.newDir.erase photo
      exact hnd.not_mem_erase
    · rw [h2]
      show photo ∈ (if photo ∈ st.procDir then st.procDir else st.procDir ++ [photo])
      by_cases hin : photo ∈ st.procDir
      · rw [if_pos hin]; exact hin
      · rw [if_neg hin]
        exact List.mem_append.2 (Or.inr (List.mem_singleton.2 rfl))
  · intro e herr
    have h2 : (markedWrapper cb photo st).2 = st := by simp [markedWrapper, herr]
    exact ⟨h2, by rw [h2]; exact hmem⟩

/-- C7 witness: for a normally returning handler on a concrete one-photo
store, the wrapper marks the photo processed. -/
theorem c7_marking_witness :
    (markedWrapper (fun _ => Except.ok ()) (("a_1.jpg").data) ⟨[("a_1.jpg").data], []⟩).2
      = markPhotoAsProcessed ⟨[("a_1.jpg").data], []⟩ (("a_1.jpg").data) ∧
    ("a_1.jpg").data ∉ ((markedWrapper (fun _ => Except.ok ()) (("a_1.jpg").data)
      ⟨[("a_1.jpg").data], []⟩).2).newDir ∧
    ("a_1.jpg").data ∈ ((markedWrapper (fun _ => Except.ok ()) (("a_1.jpg").data)
      ⟨[("a_1.jpg").data], []⟩).2).procDir :=
  (c7_marking_follows_normal_return_only (fun _ => Except.ok ()) (("a_1.jpg").data)
    ⟨[("a_1.jpg").data], []⟩ (by decide) (by decide)).1 () rfl

/-- C2 counterexample: the valid compact JSON object whose single string
value is the two characters comma-then-closing-brace is corrupted by the
cleanup stage (which strips the comma) before the first parse attempt, so the
recovery parser returns a different object than a standard JSON parse —
refuting the round-trip claim for string contents containing the sequence of
a comma followed by a closing brace. -/
theorem c2_cleanup_corrupts_string_values :
    jsonLoads (("\x7b\"a\": \",\x7d\"\x7d").data)
      = some (JVal.jobj [(("a").data, JVal.jstr [',', rbrace])]) ∧
    parse_ai_response (("\x7b\"a\": \",\x7d\"\x7d").data)
      = some (JVal.jobj [(("a").data, JVal.jstr [rbrace])]) ∧
    parse_ai_response (("\x7b\"a\": \",\x7d\"\x7d").data)
      ≠ jsonLoads (("\x7b\"a\": \",\x7d\"\x7d").data) := by
  have ha : parse_ai_response (("\x7b\"a\": \",\x7d\"\x7d").data)
      = some (JVal.jobj [(("a").data, JVal.jstr [rbrace])]) := rfl
  have hb : jsonLoads (("\x7b\"a\": \",\x7d\"\x7d").data)
      = some (JVal.jobj [(("a").data, JVal.jstr [',', rbrace])]) := rfl
  refine ⟨hb, ha, ?_⟩
  intro h
  rw [ha, hb] at h
  have h2 := Option.some.inj h
  injection h2 with h3
  injection h3 with h4 h5
  have h6 : JVal.jstr [rbrace] = JVal.jstr [',', rbrace] := congrArg Prod.snd h4
  injection h6 with h7
  exact absurd h7 (by decide)

/-- C2 (amended): the recovery parser returns exactly the standard JSON parse
of any syntactically valid compact JSON object or list whose text contains no
newline, no single quote, and no comma immediately followed by a closing
brace or bracket (in particular, no such sequences inside string values) and
carries no surrounding whitespace; for string values containing a single
quote or a comma-brace sequence the cleanup stage corrupts the text (see the
counterexample). -/
theorem c2_roundtrip_of_clean_json (s : List Char) (v : JVal)
    (_hv : (∃ kvs, v = JVal.jobj kvs) ∨ (∃ xs, v = JVal.jarr xs))
    (hj : jsonLoads s = some v) (h0 : pyStrip s = s)
    (h1 : ¬ (['\n'] <:+: s)) (h2 : ¬ ([squote] <:+: s))
    (h3 : ¬ ([',', rbrace] <:+: s)) (h4 : ¬ ([',', ']'] <:+: s)) :
    parse_ai_response s = some v := by
  unfold parse_ai_response
  rw [h0, defaultCleanup_id s h1 h2 h3 h4, hj]

/-- C2 witness: a concrete one-key object round-trips unchanged. -/
theorem c2_roundtrip_witness :
    parse_ai_response (("\x7b\"a\": 1\x7d").data)
      = some (JVal.jobj [(("a").data, JVal.jnum ("1").data)]) :=
  c2_roundtrip_of_clean_json _ _ (Or.inl ⟨_, rfl⟩) rfl rfl (by decide) (by decide) (by decide)
    (by decide)

/-- C5 counterexample: on the completion `[]` (the empty JSON list), `extract`
returns the empty event list, refuting the claimed guarantee that the result
always has length at least one. -/
theorem c5_empty_list_completion_yields_no_events :
    extract (fun _ => none) ⟨2024, 5, 1⟩ (("i").data) [("t").data] (("[]").data) = [] ∧
    ¬ (1 ≤ (extract (fun _ => none) ⟨2024, 5, 1⟩ (("i").data) [("t").data]
        (("[]").data)).length) :=
  ⟨rfl, by decide⟩

/-- C5 (amended): for every completion (with OCR assumed successful),
`extract` is total — every exception of the parsing attempt is caught and
degrades to the single fallback event — and the number of returned events is
exactly characterized: when the recovery parser yields a JSON list all of
whose elements are objects, it equals the number of list elements (zero
exactly for the empty list `[]`); in every other case (parse failure, a
non-list value on which `.get` raises, or a list containing a non-object
element, which makes the comprehension raise) exactly one event is returned.
So the result has length at least one except for the empty-list completion of
the counterexample. -/
theorem c5_extract_total_event_count (du : List Char → Option DT) (now : DT)
    (image : List Char) (words : List (List Char)) (completion : List Char) :
    (∀ xs, parse_ai_response completion = some (JVal.jarr xs) → xs.all isObjV = true →
      (extract du now image words completion).length = xs.length) ∧
    ((¬ ∃ xs, parse_ai_response completion = some (JVal.jarr xs) ∧ xs.all isObjV = true) →
      (extract du now image words completion).length = 1) := by
  constructor
  · intro xs hp hall
    simp [extract, hp, hall]
  · intro hne
    cases hp : parse_ai_response completion with
    | none => simp [extract, hp]
    | some v =>
      cases v with
      | jarr xs =>
        have hall : ¬ (xs.all isObjV = true) := fun h => hne ⟨xs, hp, h⟩
        simp [extract, hp, hall]
      | jnull => simp [extract, hp]
      | jbool b => simp [extract, hp]
      | jnum a => simp [extract, hp]
      | jstr a => simp [extract, hp]
      | jobj kvs => simp [extract, hp]

/-- C5 witness: on the completion `[]` (a list of zero objects) zero events
are returned, and on `[1, 2]` (a list whose elements are not objects, so the
comprehension raises and the exception is caught) exactly one event is
returned. -/
theorem c5_event_count_witness :
    (extract (fun _ => none) ⟨2024, 5, 1⟩ (("i").data) [("t").data]
      (("[]").data)).length = 0 ∧
    (extract (fun _ => none) ⟨2024, 5, 1⟩ (("i").data) [("t").data]
      (("[1, 2]").data)).length = 1 := by
  constructor
  · exact (c5_extract_total_event_count (fun _ => none) ⟨2024, 5, 1⟩ (("i").data)
      [("t").data] (("[]").data)).1 [] rfl rfl
  · have hne : ¬ ∃ xs, parse_ai_response (("[1, 2]").data) = some (JVal.jarr xs) ∧
        xs.all isObjV = true := by
      rintro ⟨xs, hx, hall⟩
      have hp : parse_ai_response (("[1, 2]").data)
          = some (JVal.jarr [JVal.jnum ("1").data, JVal.jnum ("2").data]) := rfl
      rw [hp] at hx
      have h2 := Option.some.inj hx
      injection h2 with h3
      rw [← h3] at hall
      exact absurd hall (by decide)
    exact (c5_extract_total_event_count (fun _ => none) ⟨2024, 5, 1⟩ (("i").data)
      [("t").data] (("[1, 2]").data)).2 hne

/-- C6 counterexample: on a prose completion the degraded event's date is the
"now" sentinel supplied by the dataclass default, not absent — refuting the
claim that title, date, time and location are all absent. -/
theorem c6_degraded_event_date_not_absent :
    extract (fun _ => none) ⟨2024, 5, 1⟩ (("i").data) [("t").data]
      (("kein JSON hier").data)
      = [fallbackEvent ⟨2024, 5, 1⟩ (("i").data) (("t").data)] ∧
    (fallbackEvent (⟨2024, 5, 1⟩ : DT) (("i").data) (("t").data)).date
      = some ⟨2024, 5, 1⟩ ∧
    some (⟨2024, 5, 1⟩ : DT) ≠ none :=
  ⟨rfl, rfl, by decide⟩

/-- C6 (amended): when all recovery attempts on the completion fail, `extract`
returns exactly one event whose original text is the non-empty recognized
text and whose title, time and location are absent; its date is the "now"
sentinel (the dataclass default for the omitted date argument), not absent. -/
theorem c6_prose_completion_degraded_event (du : List Char → Option DT) (now : DT)
    (image : List Char) (words : List (List Char)) (completion : List Char)
    (hp : parse_ai_response completion = none) (ht : joinSp words ≠ []) :
    extract du now image words completion = [fallbackEvent now image (joinSp words)] ∧
    (fallbackEvent now image (joinSp words)).title = none ∧
    (fallbackEvent now image (joinSp words)).time = none ∧
    (fallbackEvent now image (joinSp words)).location = none ∧
    (fallbackEvent now image (joinSp words)).date = some now ∧
    (fallbackEvent now image (joinSp words)).original_text ≠ [] :=
  ⟨by simp [extract, hp], rfl, rfl, rfl, rfl, ht⟩

/-- C6 witness: a concrete prose completion produces exactly the degraded
event. -/
theorem c6_prose_witness :
    extract (fun _ => none) ⟨2024, 5, 1⟩ (("img.jpg").data) [("Flohmarkt").data]
      (("kein JSON hier").data)
      = [fallbackEvent ⟨2024, 5, 1⟩ (("img.jpg").data) (joinSp [("Flohmarkt").data])] ∧
    (fallbackEvent (⟨2024, 5, 1⟩ : DT) (("img.jpg").data)
      (joinSp [("Flohmarkt").data])).date = some ⟨2024, 5, 1⟩ :=
  ⟨(c6_prose_completion_degraded_event (fun _ => none) ⟨2024, 5, 1⟩ (("img.jpg").data)
      [("Flohmarkt").data] (("kein JSON hier").data) rfl (by decide)).1,
   (c6_prose_completion_degraded_event (fun _ => none) ⟨2024, 5, 1⟩ (("img.jpg").data)
      [("Flohmarkt").data] (("kein JSON hier").data) rfl (by decide)).2.2.2.2.1⟩

/-- C8: evaluation of the date normalizer on the spec's reference examples,
for any loose parser respecting `dateutil`'s documented rejection of unknown
alphabetic tokens.  "01.05.2024" and "2024-05-01" resolve to May 1, 2024 and
"not a date" is left unresolved as claimed; but "12. März" is left
UNRESOLVED, not resolved to March 12 of the current year: the German month
name is unknown to the loose parser (and the year is appended without a
separating space), so the whole fallback chain fails — the third conjunct
records the divergence from the claim. -/
theorem c8_date_normalizer_examples (du : List Char → Option DT) (hdu : duRejects du) :
    resolveDate du ⟨2024, 6, 15⟩ (some (JVal.jstr (("01.05.2024").data)))
      = some ⟨2024, 5, 1⟩ ∧
    resolveDate du ⟨2024, 6, 15⟩ (some (JVal.jstr (("2024-05-01").data)))
      = some ⟨2024, 5, 1⟩ ∧
    resolveDate du ⟨2024, 6, 15⟩ (some (JVal.jstr (("12. März").data))) = none ∧
    resolveDate du ⟨2024, 6, 15⟩ (some (JVal.jstr (("not a date").data))) = none := by
  refine ⟨rfl, rfl, ?_, ?_⟩
  · have hd1 : du (("12. März").data) = none := hdu _ rfl
    have hd2 : du ((("12. März").data) ++ (toString (2024 : Nat)).data) = none := hdu _ rfl
    have e1 : tryParseDate du (("12. März").data) = du (("12. März").data) := rfl
    have e2 : tryParseDate du ((("12. März").data) ++ (toString (2024 : Nat)).data)
        = du ((("12. März").data) ++ (toString (2024 : Nat)).data) := rfl
    show (match tryParseDate du (("12. März").data) with
      | some d => some d
      | none => tryParseDate du ((("12. März").data) ++ (toString (2024 : Nat)).data)) = none
    rw [e1, hd1, e2, hd2]
  · have hd1 : du (("not a date").data) = none := hdu _ rfl
    have hd2 : du ((("not a date").data) ++ (toString (2024 : Nat)).data) = none := hdu _ rfl
    have e1 : tryParseDate du (("not a date").data) = du (("not a date").data) := rfl
    have e2 : tryParseDate du ((("not a date").data) ++ (toString (2024 : Nat)).data)
        = du ((("not a date").data) ++ (toString (2024 : Nat)).data) := rfl
    show (match tryParseDate du (("not a date").data) with
      | some d => some d
      | none => tryParseDate du ((("not a date").data) ++ (toString (2024 : Nat)).data)) = none
    rw [e1, hd1, e2, hd2]

/-- C8 witness: the theorem instantiated at the everywhere-failing loose
parser, which trivially satisfies the rejection specification. -/
theorem c8_date_normalizer_witness :
    resolveDate (fun _ => none) ⟨2024, 6, 15⟩ (some (JVal.jstr (("01.05.2024").data)))
      = some ⟨2024, 5, 1⟩ ∧
    resolveDate (fun _ => none) ⟨2024, 6, 15⟩ (some (JVal.jstr (("2024-05-01").data)))
      = some ⟨2024, 5, 1⟩ ∧
    resolveDate (fun _ => none) ⟨2024, 6, 15⟩ (some (JVal.jstr (("12. März").data))) = none ∧
    resolveDate (fun _ => none) ⟨2024, 6, 15⟩ (some (JVal.jstr (("not a date").data)))
      = none :=
  c8_date_normalizer_examples (fun _ => none) (fun _ _ => rfl)

/-- C9 counterexample: for a completion whose JSON has `"Datum": null`, the
constructor receives `None` and `__post_init__` returns immediately, leaving
the date ABSENT — refuting the claim that the resolved date equals the "now"
sentinel in that case. -/
theorem c9_null_date_resolves_to_absent_not_now :
    extract (fun _ => none) ⟨2024, 5, 1⟩ (("i").data) [("t").data]
      (("\x7b\"Titel\": \"X\", \"Datum\": null\x7d").data)
      = [{ src := ("i").data, original_text := ("t").data,
           title := some (JVal.jstr (("X").data)), time := none, location := none,
           date := none }] ∧
    (none : Option DT) ≠ some (⟨2024, 5, 1⟩ : DT) :=
  ⟨rfl, by decide⟩

/-- C9 (amended): a date argument that is `None` (missing key or JSON null)
stays absent, and an unparseable date string resolves to absent; the "now"
sentinel arises only when the date argument is omitted entirely, as in the
degraded fallback event. -/
theorem c9_date_absent_behavior (du : List Char → Option DT) (now : DT)
    (img txt : List Char) (hdu : duRejects du) :
    resolveDate du now none = none ∧
    (fallbackEvent now img txt).date = some now ∧
    resolveDate du ⟨2024, 6, 15⟩ (some (JVal.jstr (("nicht lesbar").data))) = none := by
  refine ⟨rfl, rfl, ?_⟩
  have hd1 : du (("nicht lesbar").data) = none := hdu _ rfl
  have hd2 : du ((("nicht lesbar").data) ++ (toString (2024 : Nat)).data) = none := hdu _ rfl
  have e1 : tryParseDate du (("nicht lesbar").data) = du (("nicht lesbar").data) := rfl
  have e2 : tryParseDate du ((("nicht lesbar").data) ++ (toString (2024 : Nat)).data)
      = du ((("nicht lesbar").data) ++ (toString (2024 : Nat)).data) := rfl
  show (match tryParseDate du (("nicht lesbar").data) with
    | some d => some d
    | none => tryParseDate du ((("nicht lesbar").data) ++ (toString (2024 : Nat)).data)) = none
  rw [e1, hd1, e2, hd2]

/-- C9 witness: the theorem instantiated at the everywhere-failing loose
parser and a concrete store. -/
theorem c9_date_absent_witness :
    resolveDate (fun _ => none) ⟨2024, 5, 1⟩ none = none ∧
    (fallbackEvent (⟨2024, 5, 1⟩ : DT) (("i").data) (("t").data)).date
      = some ⟨2024, 5, 1⟩ ∧
    resolveDate (fun _ => none) ⟨2024, 6, 15⟩ (some (JVal.jstr (("nicht lesbar").data)))
      = none :=
  c9_date_absent_behavior (fun _ => none) ⟨2024, 5, 1⟩ (("i").data) (("t").data)
    (fun _ _ => rfl)

/-- C10: for a file whose final extension carries no underscore, if the stem
contains an underscore then the id is the part of the stem after the last
underscore, the name is the part before it, and name-underscore-id
reconstructs the stem; if the stem contains no underscore, the name is empty
and the id is the whole stem. -/
theorem c10_id_name_decomposition (fname : List Char) (hsuf : '_' ∉ pySuffix fname) :
    (('_' ∈ pyStem fname) →
      photoId fname = afterLastU (pyStem fname) ∧
      photoName fname = beforeLastU (pyStem fname) ∧
      beforeLastU (pyStem fname) ++ '_' :: afterLastU (pyStem fname) = pyStem fname) ∧
    (('_' ∉ pyStem fname) → photoName fname = [] ∧ photoId fname = pyStem fname) := by
  have hfs : pyStem fname ++ pySuffix fname = fname := pyStem_append_pySuffix fname
  constructor
  · intro hstem
    obtain ⟨hsplit, hclean⟩ := last_underscore_split (pyStem fname) hstem
    set A := afterLastU (pyStem fname) with hA
    set B := beforeLastU (pyStem fname) with hB
    have hid : photoId fname = A := by
      unfold photoId
      rw [hsplit, splitU_append, splitU_of_not_mem hclean, List.getLastD_concat]
    have hfname : fname = B ++ '_' :: (A ++ pySuffix fname) := by
      conv_lhs => rw [← hfs]
      rw [hsplit]
      simp
    have hnotin : '_' ∉ A ++ pySuffix fname := by
      intro hm
      rcases List.mem_append.1 hm with hm | hm
      · exact hclean hm
      · exact hsuf hm
    have hname : photoName fname = B := by
      unfold photoName
      conv_lhs => rw [hfname]
      rw [splitU_append, splitU_of_not_mem hnotin, List.dropLast_concat, interU_splitU]
    exact ⟨hid, hname, hsplit.symm⟩
  · intro hstem
    have hnotin : '_' ∉ fname := by
      intro hm
      rw [← hfs] at hm
      rcases List.mem_append.1 hm with hm | hm
      · exact hstem hm
      · exact hsuf hm
    constructor
    · unfold photoName
      rw [splitU_of_not_mem hnotin]
      rfl
    · unfold photoId
      rw [splitU_of_not_mem hstem]
      rfl

/-- C10 witness: evaluation on a concrete underscored name and a concrete
non-underscored name. -/
theorem c10_id_name_witness :
    photoId (("photo_a_123.jpg").data) = afterLastU (pyStem (("photo_a_123.jpg").data)) ∧
    photoName (("photo_a_123.jpg").data) = beforeLastU (pyStem (("photo_a_123.jpg").data)) ∧
    beforeLastU (pyStem (("photo_a_123.jpg").data)) ++ '_'
      :: afterLastU (pyStem (("photo_a_123.jpg").data)) = pyStem (("photo_a_123.jpg").data) ∧
    photoName (("photo.jpg").data) = [] ∧
    photoId (("photo.jpg").data) = pyStem (("photo.jpg").data) := by
  have h1 := c10_id_name_decomposition (("photo_a_123.jpg").data) (by decide)
  have h2 := c10_id_name_decomposition (("photo.jpg").data) (by decide)
  obtain ⟨ha, hb, hc⟩ := h1.1 (by decide)
  obtain ⟨hd, he⟩ := h2.2 (by decide)
  exact ⟨ha, hb, hc, hd, he⟩

end Suffcal
